import Mathlib

/-!
Verification of the FocusGate service worker (`src/unnamed/part_000`) and the
blocked-page hash decoding (`src/blocked.js`).

The JavaScript source is shallowly embedded: storage state becomes an explicit
`FGState` record, the permission system becomes an oracle function from origin
patterns to query outcomes, timestamps are `Nat` milliseconds, and each
source function becomes a pure Lean function that returns its result together
with the updated state.
-/

namespace FocusGate

/-- Outcome of one `chrome.permissions.contains` query for a single origin
pattern: the pattern is granted, not granted, or the query itself throws. -/
inductive PermResult where
  | granted
  | denied
  | failure
deriving DecidableEq, Repr

/-- The permission oracle: for each origin-pattern string, the outcome of
querying `chrome.permissions.contains` with that pattern. -/
abbrev Oracle := String → PermResult

/-- A JavaScript value as far as the message handler inspects one:
`undefined`/missing, a string, or a number.  Used for the loosely-typed
`msg.cmd`, `msg.domain` and `msg.minutes` fields. -/
inductive JVal where
  | undef
  | str (s : String)
  | num (n : Int)
deriving DecidableEq, Repr

/-- JavaScript truthiness of a `JVal` (`undefined`, `""` and `0` are falsy). -/
def JVal.truthy : JVal → Bool
  | .undef => false
  | .str s => s ≠ ""
  | .num n => n ≠ 0

/-- JavaScript string coercion of a `JVal`, as used when a value is stored as
an object key (`pending[domain] = ts`). -/
def JVal.toKey : JVal → String
  | .undef => "undefined"
  | .str s => s
  | .num n => toString n

/-- Storage state of the service worker: the synced `blockedDomains` key and
the local `pausedUntilTs`, `pausedDomains` and `pendingGrants` keys
(`src/unnamed/part_000` lines 17-23).  The two maps are association lists of
domain to expiry timestamp. -/
structure FGState where
  blockedDomains : List String
  pausedUntilTs : Nat
  pausedDomains : List (String × Nat)
  pendingGrants : List (String × Nat)
deriving DecidableEq, Repr

/-- A declarativeNetRequest dynamic rule as built by `domainRule`
(`src/unnamed/part_000` lines 166-184). -/
structure Rule where
  id : Nat
  priority : Nat
  actionType : String
  extensionPath : String
  urlFilter : String
  resourceTypes : List String
deriving DecidableEq, Repr

/-- `RULE_BASE` (`src/unnamed/part_000` line 5): starting ID for the dynamic
rules owned by this subsystem. -/
def RULE_BASE : Nat := 100000

/-! ## Association-list helpers (JavaScript object access) -/

/-- Update-or-insert a key in an association list, modelling
`obj[key] = value` on a JavaScript object (existing key keeps its position). -/
def setKey (m : List (String × Nat)) (k : String) (v : Nat) : List (String × Nat) :=
  if (m.lookup k).isSome then m.map (fun kv => if kv.1 = k then (k, v) else kv)
  else m ++ [(k, v)]

/-- Remove a key from an association list, modelling `delete obj[key]`. -/
def delKey (m : List (String × Nat)) (k : String) : List (String × Nat) :=
  m.filter (fun kv => kv.1 ≠ k)

/-- Truthiness-guarded liveness test `m[d] && now < m[d]` used for both pause
maps (`src/unnamed/part_000` line 212) and, with `>`, pending grants. -/
def liveAt (m : List (String × Nat)) (now : Nat) (d : String) : Bool :=
  match m.lookup d with
  | some ts => ts ≠ 0 && decide (now < ts)
  | none => false

/-! ## URL encoding (`encodeURIComponent`, used by `domainRule`) -/

/-- Characters `encodeURIComponent` leaves unescaped:
`A-Z a-z 0-9 - _ . ! ~ * ' ( )`. -/
def isUnreservedChar (c : Char) : Bool :=
  (decide ('A' ≤ c) && decide (c ≤ 'Z')) ||
  (decide ('a' ≤ c) && decide (c ≤ 'z')) ||
  (decide ('0' ≤ c) && decide (c ≤ '9')) ||
  c = '-' || c = '_' || c = '.' || c = '!' || c = '~' ||
  c = '*' || c = '\'' || c = '(' || c = ')'

/-- UTF-8 byte sequence of a Unicode code point. -/
def utf8Bytes (n : Nat) : List Nat :=
  if n < 128 then [n]
  else if n < 2048 then [192 + n / 64, 128 + n % 64]
  else if n < 65536 then [224 + n / 4096, 128 + n / 64 % 64, 128 + n % 64]
  else [240 + n / 262144, 128 + n / 4096 % 64, 128 + n / 64 % 64, 128 + n % 64]

/-- Upper-case hexadecimal digit for a value below 16. -/
def hexDigitChar (n : Nat) : Char :=
  if n < 10 then Char.ofNat (48 + n) else Char.ofNat (55 + n)

/-- Percent-escape of one byte, e.g. byte 32 becomes `%20`. -/
def percentEncodeByte (b : Nat) : List Char :=
  ['%', hexDigitChar (b / 16), hexDigitChar (b % 16)]

/-- `encodeURIComponent` on a single character. -/
def encodeChar (c : Char) : List Char :=
  if isUnreservedChar c then [c]
  else ((utf8Bytes c.toNat).map percentEncodeByte).flatten

/-- Model of JavaScript `encodeURIComponent`. -/
def encodeURIComponent (s : String) : String :=
  ⟨(s.data.map encodeChar).flatten⟩

/-! ## Permission oracle (`hasHostAccess`, lines 90-113) -/

/-- The origin patterns `hasHostAccess` queries, in source order: the broad
all-sites grant first, then the per-scheme wildcard-subdomain and bare-host
patterns. -/
def hostChecks (d : String) : List String :=
  ["*://*/*",
   "https://*." ++ d ++ "/*",
   "http://*." ++ d ++ "/*",
   "https://" ++ d ++ "/*",
   "http://" ++ d ++ "/*"]

/-- The query loop of `hasHostAccess` (lines 105-112): try each pattern in
order, return `true` on the first granted one; a thrown query (`failure`) is
swallowed and the next pattern is tried.  Also returns the list of patterns
actually queried, in order. -/
def checkLoop (oracle : Oracle) : List String → Bool × List String
  | [] => (false, [])
  | p :: ps =>
    match oracle p with
    | .granted => (true, [p])
    | _ =>
      let r := checkLoop oracle ps
      (r.1, p :: r.2)

/-- `hasHostAccess` (lines 90-113) with an instrumented query log: a missing,
non-string, empty or longer-than-253-character domain is rejected up front
with no query issued; otherwise the patterns are tried in order. -/
def hasHostAccessLog (oracle : Oracle) (v : JVal) : Bool × List String :=
  match v with
  | .str d =>
    if d = "" ∨ 253 < d.length then (false, [])
    else checkLoop oracle (hostChecks d)
  | _ => (false, [])

/-- `hasHostAccess` as called from the reconciliation pipeline (always with a
string argument). -/
def hasHostAccess (oracle : Oracle) (d : String) : Bool :=
  (hasHostAccessLog oracle (.str d)).1

/-! ## Permission reconciliation (`reconcileDomains`, lines 121-156) -/

/-- Result of the scan loop inside `reconcileDomains`. -/
structure RecOut where
  allowed : List String
  denied : List String
  pending : List (String × Nat)
  changed : Bool
deriving DecidableEq, Repr

/-- The sweep test `pending[d] && pending[d] <= now` (line 139) for expired
pending-grant entries. -/
def sweepCond (pending : List (String × Nat)) (now : Nat) (d : String) : Bool :=
  match pending.lookup d with
  | some ts => ts ≠ 0 && decide (ts ≤ now)
  | none => false

/-- The `for (const d of domains)` loop of `reconcileDomains` (lines
130-143): classify each domain as allowed (`pending[d] && pending[d] > now`
or `hasHostAccess`) or denied, and delete expired pending entries
(`pending[d] && pending[d] <= now`) as they are encountered. -/
def reconcileLoop (oracle : Oracle) (now : Nat) :
    List String → List (String × Nat) → Bool → RecOut
  | [], pending, changed => ⟨[], [], pending, changed⟩
  | d :: rest, pending, changed =>
    let isAllowed := liveAt pending now d || hasHostAccess oracle d
    let pending1 := if sweepCond pending now d then delKey pending d else pending
    let r := reconcileLoop oracle now rest pending1 (changed || sweepCond pending now d)
    if isAllowed then ⟨d :: r.allowed, r.denied, r.pending, r.changed⟩
    else ⟨r.allowed, d :: r.denied, r.pending, r.changed⟩

/-- First-occurrence deduplication, modelling `Array.from(new Set(l))`. -/
def dedupAux : List String → List String → List String
  | [], _ => []
  | x :: xs, seen => if x ∈ seen then dedupAux xs seen else x :: dedupAux xs (x :: seen)

/-- `Array.from(new Set(l))`. -/
def dedupFirst (l : List String) : List String := dedupAux l []

/-- Lexicographic comparison of character lists by code unit, the order the
default `Array.sort()` comparator applies to strings. -/
def lexLe : List Char → List Char → Bool
  | [], _ => true
  | _ :: _, [] => false
  | a :: as, b :: bs =>
    if a.toNat < b.toNat then true
    else if b.toNat < a.toNat then false
    else lexLe as bs

/-- String comparison used by the model of `Array.sort()`. -/
def strLe (a b : String) : Bool := lexLe a.data b.data

/-- Insertion into a sorted list of strings. -/
def insertSorted (x : String) : List String → List String
  | [] => [x]
  | y :: ys => if strLe x y then x :: y :: ys else y :: insertSorted x ys

/-- Insertion sort on strings, modelling the outcome of `Array.sort()`. -/
def sortStrings : List String → List String
  | [] => []
  | x :: xs => insertSorted x (sortStrings xs)

/-- `Array.from(new Set(allowed)).sort()` (line 151). -/
def dedupSort (l : List String) : List String := sortStrings (dedupFirst l)

/-- `reconcileDomains` (lines 121-156): returns the allowed domains and the
updated storage state — expired pending grants swept back if any changed, and
`blockedDomains` rewritten to the deduplicated sorted allowed set if any
domain was denied. -/
def reconcileDomains (oracle : Oracle) (now : Nat) (st : FGState) :
    List String × FGState :=
  let r := reconcileLoop oracle now st.blockedDomains st.pendingGrants false
  let st1 := { st with pendingGrants := if r.changed then r.pending else st.pendingGrants }
  let st2 :=
    if r.denied.length ≠ 0 then { st1 with blockedDomains := dedupSort r.allowed }
    else st1
  (r.allowed, st2)

/-! ## Rule compilation (`domainRule`, lines 166-184) -/

/-- `domainRule(id, domain)` (lines 166-184): a redirect rule for the domain
and its subdomains, top-level navigation only, with the domain URL-encoded in
the redirect target. -/
def domainRule (id : Nat) (domain : String) : Rule :=
  { id := id
  , priority := 1
  , actionType := "redirect"
  , extensionPath := "/blocked.html#d=" ++ encodeURIComponent domain
  , urlFilter := "||" ++ domain ++ "^"
  , resourceTypes := ["main_frame"] }

/-- `activeDomains.map((d, i) => domainRule(RULE_BASE + i, d))` (line 215). -/
def compileRules (activeDomains : List String) : List Rule :=
  activeDomains.enum.map (fun p => domainRule (RULE_BASE + p.1) p.2)

/-! ## One reconciliation pass (`syncRules` body, lines 201-227) -/

/-- The body of one `syncRules` pass (lines 201-215), up to the rule-store
update: reconcile permissions, drop globally or individually paused domains,
and compile the desired rules.  Returns the compiled rules and the storage
state after the pass's writes. -/
def syncPass (st : FGState) (oracle : Oracle) (now : Nat) : List Rule × FGState :=
  let r := reconcileDomains oracle now st
  let permitted := r.1
  let activeDomains :=
    if st.pausedUntilTs ≠ 0 ∧ now < st.pausedUntilTs then []
    else permitted.filter (fun d => !(liveAt st.pausedDomains now d))
  (compileRules activeDomains, r.2)

/-- Is a rule identifier inside the reserved range
`[RULE_BASE, RULE_BASE + 90000)` (line 220)? -/
def inReservedRange (id : Nat) : Bool :=
  decide (RULE_BASE ≤ id) && decide (id < RULE_BASE + 90000)

/-- `chrome.declarativeNetRequest.updateDynamicRules({removeRuleIds, addRules})`
(lines 224-227): one atomic removal-plus-addition on the installed rule set. -/
def updateDynamicRules (installed : List Rule) (removeRuleIds : List Nat)
    (addRules : List Rule) : List Rule :=
  installed.filter (fun r => !(decide (r.id ∈ removeRuleIds))) ++ addRules

/-- The rule-store side of a pass (lines 217-227): collect the installed ids
in the reserved range and atomically replace those rules with the fresh set. -/
def syncRulesApply (installed : List Rule) (desired : List Rule) : List Rule :=
  let ourIds := (installed.filter (fun r => inReservedRange r.id)).map (fun r => r.id)
  updateDynamicRules installed ourIds desired

/-! ## The `syncRules` mutex discipline (lines 5-7, 193-199 and 229-236)

The module-level flags `_syncing` and `_needsResync` form a small state
machine.  `inFlight` counts passes currently executing (the source's boolean
`_syncing` admits no count, so proving it stays at most 1 is the content of
the mutual-exclusion claim); `passes` counts passes ever started.  A
`request` event is a call of `syncRules`: if a pass is in flight it only sets
`_needsResync` (lines 195-198), otherwise a new pass starts.  A `finish`
event is the `finally` block (lines 229-236): the pass ends and, if
`_needsResync` was set, it is cleared and exactly one trailing pass starts. -/
structure SyncFlags where
  inFlight : Nat
  needsResync : Bool
  passes : Nat
deriving DecidableEq, Repr

/-- Events hitting the `syncRules` mutex. -/
inductive SyncEv where
  | request
  | finish
deriving DecidableEq, Repr

/-- One transition of the mutex state machine. -/
def syncStep (s : SyncFlags) : SyncEv → SyncFlags
  | .request =>
    if s.inFlight ≠ 0 then { s with needsResync := true }
    else { s with inFlight := s.inFlight + 1, passes := s.passes + 1 }
  | .finish =>
    if s.inFlight ≠ 0 then
      if s.needsResync then
        { s with needsResync := false, passes := s.passes + 1 }
      else { s with inFlight := s.inFlight - 1 }
    else s

/-- Run a sequence of events through the mutex state machine. -/
def syncRun (s : SyncFlags) : List SyncEv → SyncFlags
  | [] => s
  | e :: es => syncRun (syncStep s e) es

/-- The idle initial state (`_syncing = false`, `_needsResync = false`). -/
def syncIdle : SyncFlags := ⟨0, false, 0⟩

/-! ## Alarms and the whole-worker state -/

/-- The armed chrome alarms, as (name, fire time) pairs.
`chrome.alarms.create` replaces an alarm with the same name. -/
def alarmCreate (al : List (String × Nat)) (name : String) (when : Nat) :
    List (String × Nat) :=
  al.filter (fun a => a.1 ≠ name) ++ [(name, when)]

/-- `chrome.alarms.clear(name)`. -/
def alarmClear (al : List (String × Nat)) (name : String) : List (String × Nat) :=
  al.filter (fun a => a.1 ≠ name)

/-- Everything the service worker can observe or mutate: storage, armed
alarms, and the installed dynamic rules. -/
structure World where
  fg : FGState
  alarms : List (String × Nat)
  installed : List Rule
deriving DecidableEq, Repr

/-- A full `syncRules` pass acting on the world: run the pass body over
storage and swap the owned rules in the rule store. -/
def applyPass (oracle : Oracle) (now : Nat) (w : World) : World :=
  let p := syncPass w.fg oracle now
  { w with fg := p.2, installed := syncRulesApply w.installed p.1 }

/-- `setDomainPause(domain, untilTs)` (lines 38-46): store the expiry if it is
truthy and in the future, otherwise delete the entry. -/
def setDomainPause (m : List (String × Nat)) (now : Nat) (domain : String)
    (untilTs : Nat) : List (String × Nat) :=
  if untilTs ≠ 0 ∧ now < untilTs then setKey m domain untilTs
  else delKey m domain

/-- `setPendingGrant(domain, untilTs)` (lines 72-80): same shape as
`setDomainPause`, on the pending-grant map. -/
def setPendingGrant (m : List (String × Nat)) (now : Nat) (domain : String)
    (untilTs : Nat) : List (String × Nat) :=
  if untilTs ≠ 0 ∧ now < untilTs then setKey m domain untilTs
  else delKey m domain

/-- `pauseAllForMinutes(m)` (lines 245-251): set the global pause, run a
pass, and arm the `fg:resumeAll` alarm at the expiry. -/
def pauseAllForMinutes (oracle : Oracle) (now : Nat) (m : Nat) (w : World) : World :=
  let untilTs := now + m * 60000
  let w1 := { w with fg := { w.fg with pausedUntilTs := untilTs } }
  let w2 := applyPass oracle now w1
  { w2 with alarms := alarmCreate w2.alarms "fg:resumeAll" untilTs }

/-- `resumeAllNow()` (lines 256-269): clear the global pause and all domain
pauses, run a pass, and clear `fg:resumeAll` and every `fg:resume:`-prefixed
alarm. -/
def resumeAllNow (oracle : Oracle) (now : Nat) (w : World) : World :=
  let w1 := { w with fg := { w.fg with pausedUntilTs := 0, pausedDomains := [] } }
  let w2 := applyPass oracle now w1
  let keep := fun (a : String × Nat) => !(a.1 = "fg:resumeAll" || String.isPrefixOf "fg:resume:" a.1)
  { w2 with alarms := w2.alarms.filter keep }

/-- `pauseDomainForMinutes(d, m)` (lines 276-285): a falsy or non-string
domain silently does nothing; otherwise persist the per-domain pause, run a
pass, and arm the per-domain alarm. -/
def pauseDomainForMinutes (oracle : Oracle) (now : Nat) (d : JVal) (m : Nat)
    (w : World) : World :=
  match d with
  | .str s =>
    if s = "" then w
    else
      let untilTs := now + m * 60000
      let w1 := { w with fg :=
        { w.fg with pausedDomains := setDomainPause w.fg.pausedDomains now s untilTs } }
      let w2 := applyPass oracle now w1
      { w2 with alarms := alarmCreate w2.alarms ("fg:resume:" ++ s) untilTs }
  | _ => w

/-- `resumeDomainNow(d)` (lines 291-298): a falsy or non-string domain
silently does nothing; otherwise delete the pause, run a pass, and clear the
per-domain alarm. -/
def resumeDomainNow (oracle : Oracle) (now : Nat) (d : JVal) (w : World) : World :=
  match d with
  | .str s =>
    if s = "" then w
    else
      let w1 := { w with fg :=
        { w.fg with pausedDomains := setDomainPause w.fg.pausedDomains now s 0 } }
      let w2 := applyPass oracle now w1
      { w2 with alarms := alarmClear w2.alarms ("fg:resume:" ++ s) }
  | _ => w

/-! ## Message handler (lines 334-391) -/

/-- A message as inspected by the handler: `msg.cmd`, `msg.domain`,
`msg.minutes`. -/
structure Msg where
  cmd : JVal
  domain : JVal
  minutes : JVal
deriving DecidableEq, Repr

/-- The `{ok: true}` / `{ok: false, error}` response shape. -/
inductive Resp where
  | ok
  | err (message : String)
deriving DecidableEq, Repr

/-- The `chrome.runtime.onMessage` listener (lines 334-391): dispatch on
`msg.cmd`, validate fields, perform the operation, and answer with a
`Resp`. -/
def handleMessage (oracle : Oracle) (now : Nat) (msg : Msg) (w : World) :
    Resp × World :=
  if msg.cmd = JVal.str "syncRules" then
    (.ok, applyPass oracle now w)
  else if msg.cmd = JVal.str "pauseForMinutes" then
    match msg.minutes with
    | .num n => if 0 < n then (.ok, pauseAllForMinutes oracle now n.toNat w)
                else (.err "Invalid minutes", w)
    | _ => (.err "Invalid minutes", w)
  else if msg.cmd = JVal.str "resumeNow" then
    (.ok, resumeAllNow oracle now w)
  else if msg.cmd = JVal.str "pauseDomain" then
    match msg.minutes with
    | .num n =>
      if msg.domain.truthy && decide (0 < n) then
        (.ok, pauseDomainForMinutes oracle now msg.domain n.toNat w)
      else (.err "Invalid domain or minutes", w)
    | _ => (.err "Invalid domain or minutes", w)
  else if msg.cmd = JVal.str "resumeDomain" then
    if msg.domain.truthy then (.ok, resumeDomainNow oracle now msg.domain w)
    else (.err "Invalid domain", w)
  else if msg.cmd = JVal.str "markPending" then
    if msg.domain.truthy then
      let pg := setPendingGrant w.fg.pendingGrants now msg.domain.toKey (now + 15000)
      (.ok, { w with fg := { w.fg with pendingGrants := pg } })
    else (.err "Invalid domain", w)
  else if msg.cmd = JVal.str "markGranted" then
    if msg.domain.truthy then
      let pg := setPendingGrant w.fg.pendingGrants now msg.domain.toKey 0
      (.ok, applyPass oracle now { w with fg := { w.fg with pendingGrants := pg } })
    else (.err "Invalid domain", w)
  else (.err "Unknown command", w)

/-! ## Startup listener (lines 311-329) -/

/-- The alarms re-armed by the `onStartup` listener: the global alarm if the
persisted global pause is truthy and unexpired, and one `fg:resume:`-named
alarm per unexpired `pausedDomains` entry, at the persisted expiry. -/
def startupAlarms (st : FGState) (now : Nat) : List (String × Nat) :=
  (if st.pausedUntilTs ≠ 0 ∧ now < st.pausedUntilTs
   then [("fg:resumeAll", st.pausedUntilTs)] else []) ++
  st.pausedDomains.filterMap
    (fun e => if e.2 ≠ 0 ∧ now < e.2 then some ("fg:resume:" ++ e.1, e.2) else none)

/-- Result of the startup listener: the re-armed alarms and the
reconciliation pass that then runs. -/
structure StartupOut where
  alarms : List (String × Nat)
  rules : List Rule
  state : FGState
deriving DecidableEq, Repr

/-- The `chrome.runtime.onStartup` listener (lines 311-329): re-arm the
persisted unexpired pause timers, then run `syncRules`. -/
def onStartup (oracle : Oracle) (now : Nat) (st : FGState) : StartupOut :=
  { alarms := startupAlarms st now
  , rules := (syncPass st oracle now).1
  , state := (syncPass st oracle now).2 }

/-! ## Blocked page (`src/blocked.js` lines 10-19) -/

/-- Value of a hexadecimal digit character (0 for anything else). -/
def hexVal (c : Char) : Nat :=
  if decide ('0' ≤ c) && decide (c ≤ '9') then c.toNat - 48
  else if decide ('A' ≤ c) && decide (c ≤ 'F') then c.toNat - 55
  else if decide ('a' ≤ c) && decide (c ≤ 'f') then c.toNat - 87
  else 0

/-- An intermediate token of `decodeURIComponent`: either a character that
passed through unescaped, or the byte value of one `%HH` escape. -/
inductive Tok where
  | ch (c : Char)
  | byte (b : Nat)
deriving DecidableEq, Repr

/-- First phase of `decodeURIComponent`: turn each `%HH` escape into its byte
value and pass every other character through. -/
def percentToks : List Char → List Tok
  | [] => []
  | '%' :: h :: l :: rest => .byte (16 * hexVal h + hexVal l) :: percentToks rest
  | c :: rest => .ch c :: percentToks rest

/-- Second phase of `decodeURIComponent`: assemble runs of escape bytes into
UTF-8 characters, one token at a time, carrying the number of continuation
bytes still expected and the accumulated code point (a malformed sequence,
on which the JavaScript function throws, yields garbage or `[]`). -/
def utf8Fold : Option (Nat × Nat) → List Tok → List Char
  | _, [] => []
  | none, .ch c :: rest => c :: utf8Fold none rest
  | none, .byte b0 :: rest =>
    if b0 < 128 then Char.ofNat b0 :: utf8Fold none rest
    else if b0 < 224 then utf8Fold (some (1, b0 - 192)) rest
    else if b0 < 240 then utf8Fold (some (2, b0 - 224)) rest
    else utf8Fold (some (3, b0 - 240)) rest
  | some (k, acc), .byte b :: rest =>
    if k = 1 then Char.ofNat (acc * 64 + (b - 128)) :: utf8Fold none rest
    else utf8Fold (some (k - 1, acc * 64 + (b - 128))) rest
  | some _, .ch _ :: rest => utf8Fold none rest

/-- Model of JavaScript `decodeURIComponent` on a character list: a `%HH`
escape starts a UTF-8 sequence whose continuation bytes are further `%HH`
escapes; every other character passes through. -/
def decodePercent (l : List Char) : List Char := utf8Fold none (percentToks l)

/-- The regex scan `(location.hash || "").match(/[#&]d=([^&]+)/)`: find the
leftmost position where `#d=` or `&d=` matches with a nonempty run of
non-`&` characters after it, and capture that run. -/
def findDMatch : List Char → Option (List Char)
  | [] => none
  | c :: rest =>
    if c = '#' || c = '&' then
      match rest with
      | 'd' :: '=' :: tail =>
        let cap := tail.takeWhile (fun x => x ≠ '&')
        if cap.isEmpty then findDMatch rest else some cap
      | _ => findDMatch rest
    else findDMatch rest

/-- `.replace(/^www\./i, "")` on a character list. -/
def stripWww (l : List Char) : List Char :=
  match l with
  | a :: b :: c :: d :: rest =>
    if a.toLower = 'w' ∧ b.toLower = 'w' ∧ c.toLower = 'w' ∧ d = '.' then rest
    else a :: b :: c :: d :: rest
  | _ => l

/-- Does a string begin with the four characters `www.`? -/
def beginsWithWww (s : String) : Bool :=
  match s.data with
  | 'w' :: 'w' :: 'w' :: '.' :: _ => true
  | _ => false

/-- `getDomainFromHash` (`src/blocked.js` lines 10-19): match the hash
against `/[#&]d=([^&]+)/`, decode the capture, strip a leading `www.`
case-insensitively, and lowercase; empty string when there is no match. -/
def getDomainFromHash (hash : String) : String :=
  match findDMatch hash.data with
  | some cap => ⟨(stripWww (decodePercent cap)).map Char.toLower⟩
  | none => ""

/-- A sample oracle granting exactly the wildcard-subdomain https patterns
of `a.com` and `b.com`. -/
def grantAB : Oracle := fun p =>
  if p = "https://*.a.com/*" ∨ p = "https://*.b.com/*" then .granted else .denied

/-! # Helper lemmas -/

lemma syncRulesApply_eq (existing desired : List Rule) :
    syncRulesApply existing desired =
      existing.filter (fun r => !(inReservedRange r.id)) ++ desired := by
  simp only [syncRulesApply, updateDynamicRules]
  congr 1
  apply List.filter_congr
  intro r hr
  congr 1
  rcases hid : inReservedRange r.id with _ | _
  · rw [decide_eq_false_iff_not]
    intro hc
    obtain ⟨x, hx, hxid⟩ := List.mem_map.mp hc
    have := (List.mem_filter.mp hx).2
    rw [hxid] at this
    simp [hid] at this
  · rw [decide_eq_true_eq]
    exact List.mem_map.mpr ⟨r, List.mem_filter.mpr ⟨hr, hid⟩, rfl⟩

lemma applyPass_installed (oracle : Oracle) (now : Nat) (w : World) :
    (applyPass oracle now w).installed =
      syncRulesApply w.installed (syncPass w.fg oracle now).1 := rfl

lemma outside_mem_syncRulesApply (existing desired : List Rule) (r : Rule)
    (hr : r ∈ existing) (h : inReservedRange r.id = false) :
    r ∈ syncRulesApply existing desired := by
  rw [syncRulesApply_eq]
  exact List.mem_append_left _ (List.mem_filter.mpr ⟨hr, by simp [h]⟩)

lemma outside_mem_applyPass (oracle : Oracle) (now : Nat) (w : World) (r : Rule)
    (hr : r ∈ w.installed) (h : inReservedRange r.id = false) :
    r ∈ (applyPass oracle now w).installed :=
  outside_mem_syncRulesApply _ _ _ hr h

lemma outside_mem_pauseAll (oracle : Oracle) (now m : Nat) (w : World) (r : Rule)
    (hr : r ∈ w.installed) (h : inReservedRange r.id = false) :
    r ∈ (pauseAllForMinutes oracle now m w).installed :=
  outside_mem_applyPass _ _ _ _ hr h

lemma outside_mem_resumeAll (oracle : Oracle) (now : Nat) (w : World) (r : Rule)
    (hr : r ∈ w.installed) (h : inReservedRange r.id = false) :
    r ∈ (resumeAllNow oracle now w).installed :=
  outside_mem_applyPass _ _ _ _ hr h

lemma outside_mem_pauseDomain (oracle : Oracle) (now : Nat) (d : JVal) (m : Nat)
    (w : World) (r : Rule) (hr : r ∈ w.installed) (h : inReservedRange r.id = false) :
    r ∈ (pauseDomainForMinutes oracle now d m w).installed := by
  cases d with
  | str s =>
    by_cases hs : s = ""
    · simpa [pauseDomainForMinutes, hs] using hr
    · have h2 := outside_mem_applyPass oracle now { w with fg := { w.fg with pausedDomains := setDomainPause w.fg.pausedDomains now s (now + m * 60000) } } r hr h
      simpa [pauseDomainForMinutes, hs] using h2
  | undef => exact hr
  | num n => exact hr

lemma outside_mem_resumeDomain (oracle : Oracle) (now : Nat) (d : JVal)
    (w : World) (r : Rule) (hr : r ∈ w.installed) (h : inReservedRange r.id = false) :
    r ∈ (resumeDomainNow oracle now d w).installed := by
  cases d with
  | str s =>
    by_cases hs : s = ""
    · simpa [resumeDomainNow, hs] using hr
    · have h2 := outside_mem_applyPass oracle now { w with fg := { w.fg with pausedDomains := setDomainPause w.fg.pausedDomains now s 0 } } r hr h
      simpa [resumeDomainNow, hs] using h2
  | undef => exact hr
  | num n => exact hr

lemma syncRun_append (s : SyncFlags) (a b : List SyncEv) :
    syncRun s (a ++ b) = syncRun (syncRun s a) b := by
  induction a generalizing s with
  | nil => rfl
  | cons e es ih => exact ih (syncStep s e)

/-! # Claim theorems -/

/-- **C2.**  Global pause dominance: whenever the persisted `pausedUntilTs`
is strictly in the future at the time a reconciliation pass reads it, the
pass compiles an empty rule set — for every blocklist, per-domain pause map,
pending-grant map and permission oracle — and after applying the pass no
rule in the reserved identifier range is installed. -/
theorem c2_global_pause_dominance (st : FGState) (oracle : Oracle) (now : Nat)
    (h : now < st.pausedUntilTs) :
    (syncPass st oracle now).1 = [] ∧
    ∀ existing : List Rule,
      (syncRulesApply existing (syncPass st oracle now).1).filter
        (fun r => inReservedRange r.id) = [] := by
  have hne : st.pausedUntilTs ≠ 0 := by omega
  have hrules : (syncPass st oracle now).1 = [] := by
    simp [syncPass, hne, h, compileRules]
  refine ⟨hrules, fun existing => ?_⟩
  rw [hrules, syncRulesApply_eq, List.append_nil, List.filter_eq_nil_iff]
  intro r hrm
  have h2 := (List.mem_filter.mp hrm).2
  simp only [Bool.not_eq_eq_eq_not, Bool.not_true] at h2
  simp [h2]

/-- Witness for C2: a state with a live global pause, a granted blocklist,
per-domain pauses and pending grants still compiles no rule, and applying
the pass to an installed set leaves nothing in the reserved range. -/
theorem c2_witness :
    (syncPass ⟨["a.com", "b.com"], 100, [("a.com", 0)], [("b.com", 90)]⟩
      (fun _ => .granted) 50).1 = [] ∧
    ∀ existing : List Rule,
      (syncRulesApply existing
        (syncPass ⟨["a.com", "b.com"], 100, [("a.com", 0)], [("b.com", 90)]⟩
          (fun _ => .granted) 50).1).filter (fun r => inReservedRange r.id) = [] :=
  c2_global_pause_dominance _ _ 50 (by decide)

/-- **C4 (amended).**  Rule compilation yields exactly one rule per active
domain: the rule at index `i` matches domain `i` and its subdomains via the
`||domain^` filter, applies to `main_frame` navigation only, and redirects
to the fixed local blocked page with the domain URL-encoded; identifiers are
assigned sequentially starting at `RULE_BASE`, recomputed fresh each pass,
and within one pass all identifiers are distinct.  (The original claim's
"no identifier is reused across passes for a different domain" is dropped:
see `c4_counterexample`.) -/
theorem c4_rule_compilation (domains : List String) :
    (compileRules domains).length = domains.length ∧
    (∀ (i : Nat) (d : String), domains[i]? = some d →
      (compileRules domains)[i]? = some
        { id := RULE_BASE + i
        , priority := 1
        , actionType := "redirect"
        , extensionPath := "/blocked.html#d=" ++ encodeURIComponent d
        , urlFilter := "||" ++ d ++ "^"
        , resourceTypes := ["main_frame"] }) ∧
    ((compileRules domains).map (fun r => r.id)).Nodup := by
  refine ⟨by simp [compileRules], fun i d hd => ?_, ?_⟩
  · simp [compileRules, List.getElem?_map, List.getElem?_enum, hd, domainRule]
  · have hmap : (compileRules domains).map (fun r => r.id) =
        (List.range domains.length).map (fun i => RULE_BASE + i) := by
      rw [compileRules, List.map_map, ← List.enum_map_fst domains, List.map_map]
      rfl
    rw [hmap]
    exact (List.nodup_range domains.length).map (fun a b h => by omega)

/-- Witness for C4: compiling two concrete domains yields the stated rules. -/
theorem c4_witness :
    (compileRules ["a.com", "b.com"]).length = 2 ∧
    (compileRules ["a.com", "b.com"])[1]? = some
      ({ id := RULE_BASE + 1
         , priority := 1
         , actionType := "redirect"
         , extensionPath := "/blocked.html#d=" ++ encodeURIComponent "b.com"
         , urlFilter := "||" ++ "b.com" ++ "^"
         , resourceTypes := ["main_frame"] } : Rule) :=
  ⟨(c4_rule_compilation ["a.com", "b.com"]).1,
   (c4_rule_compilation ["a.com", "b.com"]).2.1 1 "b.com" (by decide)⟩

/-- Counterexample for C4 as stated: two passes over different single-domain
active sets both assign the identifier `RULE_BASE` — the same identifier is
reused across passes for two different domains, contradicting "no identifier
is reused across passes for a different domain" (identifiers are only stable
within one pass). -/
theorem c4_counterexample :
    (compileRules ["a.com"]).map (fun r => r.id) = [RULE_BASE] ∧
    (compileRules ["b.com"]).map (fun r => r.id) = [RULE_BASE] ∧
    (compileRules ["a.com"]).map (fun r => r.urlFilter) ≠
      (compileRules ["b.com"]).map (fun r => r.urlFilter) := by
  refine ⟨by decide, by decide, by decide⟩

/-- **C5.**  Every reconciliation pass removes exactly the installed dynamic
rules whose identifiers fall in `[RULE_BASE, RULE_BASE + 90000)` and replaces
them with the freshly compiled set in one atomic update, so the updated rule
store is the out-of-range remainder followed by the fresh set; rules with
identifiers outside the reserved range survive the pass and survive every
command of the message router. -/
theorem c5_reserved_range (st : FGState) (oracle : Oracle) (now : Nat)
    (existing : List Rule) :
    syncRulesApply existing (syncPass st oracle now).1 =
      existing.filter (fun r => !(inReservedRange r.id)) ++ (syncPass st oracle now).1 ∧
    (∀ r ∈ existing, inReservedRange r.id = false →
      r ∈ syncRulesApply existing (syncPass st oracle now).1) ∧
    (∀ (msg : Msg) (w : World) (r : Rule), r ∈ w.installed → inReservedRange r.id = false →
      r ∈ ((handleMessage oracle now msg w).2).installed) := by
  refine ⟨syncRulesApply_eq _ _,
    fun r hr h => outside_mem_syncRulesApply _ _ _ hr h,
    fun msg w r hr hout => ?_⟩
  by_cases hc1 : msg.cmd = JVal.str "syncRules"
  · simp only [handleMessage, hc1, if_true, reduceIte]
    exact outside_mem_applyPass _ _ _ _ hr hout
  by_cases hc2 : msg.cmd = JVal.str "pauseForMinutes"
  · simp only [handleMessage, hc1, hc2, if_true, if_false, reduceIte]
    cases hm : msg.minutes with
    | num n =>
      by_cases hn : 0 < n
      · simp only [if_pos hn]
        exact outside_mem_pauseAll oracle now n.toNat w r hr hout
      · simp only [if_neg hn]
        exact hr
    | undef => exact hr
    | str t => exact hr
  by_cases hc3 : msg.cmd = JVal.str "resumeNow"
  · simp only [handleMessage, hc1, hc2, hc3, if_true, if_false, reduceIte]
    exact outside_mem_resumeAll _ _ _ _ hr hout
  by_cases hc4 : msg.cmd = JVal.str "pauseDomain"
  · simp only [handleMessage, hc1, hc2, hc3, hc4, if_true, if_false, reduceIte]
    cases hm : msg.minutes with
    | num n =>
      by_cases hb : (msg.domain.truthy && decide (0 < n)) = true
      · simp only [hb, if_true, reduceIte]
        exact outside_mem_pauseDomain oracle now msg.domain n.toNat w r hr hout
      · simp only [hb, if_false, Bool.false_eq_true, reduceIte]
        exact hr
    | undef => exact hr
    | str t => exact hr
  by_cases hc5 : msg.cmd = JVal.str "resumeDomain"
  · simp only [handleMessage, hc1, hc2, hc3, hc4, hc5, if_true, if_false, reduceIte]
    by_cases hb : msg.domain.truthy = true
    · simp only [hb, if_true, reduceIte]
      exact outside_mem_resumeDomain oracle now msg.domain w r hr hout
    · simp only [hb, if_false, Bool.false_eq_true, reduceIte]
      exact hr
  by_cases hc6 : msg.cmd = JVal.str "markPending"
  · simp only [handleMessage, hc1, hc2, hc3, hc4, hc5, hc6, if_true, if_false, reduceIte]
    by_cases hb : msg.domain.truthy = true
    · simp only [hb, if_true, reduceIte]
      exact hr
    · simp only [hb, if_false, Bool.false_eq_true, reduceIte]
      exact hr
  by_cases hc7 : msg.cmd = JVal.str "markGranted"
  · simp only [handleMessage, hc1, hc2, hc3, hc4, hc5, hc6, hc7, if_true, if_false, reduceIte]
    by_cases hb : msg.domain.truthy = true
    · simp only [hb, if_true, reduceIte]
      exact outside_mem_applyPass oracle now { w with fg := { w.fg with pendingGrants := setPendingGrant w.fg.pendingGrants now msg.domain.toKey 0 } } r hr hout
    · simp only [hb, if_false, Bool.false_eq_true, reduceIte]
      exact hr
  · simp only [handleMessage, hc1, hc2, hc3, hc4, hc5, hc6, hc7, if_false, reduceIte]
    exact hr

/-- Witness for C5: applying a pass to a mixed installed set keeps the
out-of-range rule and removes the in-range ones. -/
theorem c5_witness :
    syncRulesApply [domainRule 5 "keep.com", domainRule (RULE_BASE + 3) "old.com"]
        (syncPass ⟨[], 0, [], []⟩ (fun _ => .denied) 0).1 =
      [domainRule 5 "keep.com"] ∧
    domainRule 5 "keep.com" ∈
      syncRulesApply [domainRule 5 "keep.com", domainRule (RULE_BASE + 3) "old.com"]
        (syncPass ⟨[], 0, [], []⟩ (fun _ => .denied) 0).1 := by
  have h := c5_reserved_range ⟨[], 0, [], []⟩ (fun _ => .denied) 0
    [domainRule 5 "keep.com", domainRule (RULE_BASE + 3) "old.com"]
  refine ⟨?_, h.2.1 (domainRule 5 "keep.com") (by decide) (by decide)⟩
  rw [h.1]
  decide

/-- **C1.**  The `_syncing`/`_needsResync` discipline keeps at most one
reconciliation pass in flight from the idle start, and any number `N ≥ 1` of
`syncRules` requests arriving while a pass is in flight produce exactly one
additional trailing pass when the in-flight pass completes: after the
completion event the pass count has grown by exactly one and that single
trailing pass is in flight; when it too completes with no further request,
no further pass starts. -/
theorem c1_coalescing :
    (∀ evs : List SyncEv, (syncRun syncIdle evs).inFlight ≤ 1) ∧
    (∀ (N : Nat) (s : SyncFlags), 1 ≤ N → s.inFlight = 1 → s.needsResync = false →
      syncRun s (List.replicate N SyncEv.request ++ [SyncEv.finish]) =
        { inFlight := 1, needsResync := false, passes := s.passes + 1 } ∧
      syncRun s (List.replicate N SyncEv.request ++ [SyncEv.finish, SyncEv.finish]) =
        { inFlight := 0, needsResync := false, passes := s.passes + 1 }) := by
  constructor
  · intro evs
    have key : ∀ (l : List SyncEv) (s : SyncFlags), s.inFlight ≤ 1 →
        (syncRun s l).inFlight ≤ 1 := by
      intro l
      induction l with
      | nil => intro s hs; exact hs
      | cons e es ih =>
        intro s hs
        refine ih (syncStep s e) ?_
        cases e with
        | request =>
          by_cases h : s.inFlight ≠ 0
          · simpa [syncStep, h] using hs
          · simp only [syncStep, if_neg h]
            omega
        | finish =>
          by_cases h : s.inFlight ≠ 0
          · by_cases h2 : s.needsResync
            · simpa [syncStep, h, h2] using hs
            · simp only [syncStep, if_pos h, if_neg h2]
              omega
          · simpa [syncStep, h] using hs
    exact key evs syncIdle (by simp [syncIdle])
  · have reqs : ∀ (n : Nat) (b : Bool) (c : Nat),
        syncRun ⟨1, b, c⟩ (List.replicate (n + 1) SyncEv.request) = ⟨1, true, c⟩ := by
      intro n
      induction n with
      | zero => intro b c; rfl
      | succ n ih =>
        intro b c
        rw [List.replicate_succ]
        show syncRun (syncStep ⟨1, b, c⟩ .request) (List.replicate (n + 1) SyncEv.request) = _
        have hstep : syncStep ⟨1, b, c⟩ SyncEv.request = ⟨1, true, c⟩ := rfl
        rw [hstep, ih]
    rintro N ⟨a, b, c⟩ hN h1 h2
    dsimp only at h1 h2
    subst h1
    subst h2
    cases N with
    | zero => omega
    | succ n =>
      refine ⟨?_, ?_⟩
      · rw [syncRun_append, reqs n false c]
        rfl
      · rw [syncRun_append, reqs n false c]
        rfl

/-- Witness for C1: three requests during a pass coalesce into one trailing
pass, and the mutex keeps at most one pass in flight on a sample trace. -/
theorem c1_witness :
    (syncRun syncIdle [.request, .request, .finish, .request]).inFlight ≤ 1 ∧
    syncRun ⟨1, false, 5⟩ (List.replicate 3 SyncEv.request ++ [SyncEv.finish]) =
      { inFlight := 1, needsResync := false, passes := 6 } :=
  ⟨c1_coalescing.1 _, (c1_coalescing.2 3 ⟨1, false, 5⟩ (by decide) rfl rfl).1⟩

/-! ## C6 helpers -/

/-- An oracle with every throwing query demoted to a plain non-match. -/
def demoteFailures (oracle : Oracle) : Oracle :=
  fun p => match oracle p with
  | .failure => .denied
  | r => r

lemma checkLoop_head (oracle : Oracle) (p : String) (ps : List String) :
    (checkLoop oracle (p :: ps)).2.head? = some p := by
  cases h : oracle p <;> simp [checkLoop, h]

lemma checkLoop_granted_head (oracle : Oracle) (p : String) (ps : List String)
    (h : oracle p = .granted) : checkLoop oracle (p :: ps) = (true, [p]) := by
  simp [checkLoop, h]

lemma checkLoop_any (oracle : Oracle) (l : List String) :
    (checkLoop oracle l).1 = l.any (fun p => oracle p == .granted) := by
  induction l with
  | nil => rfl
  | cons p ps ih =>
    cases h : oracle p <;> simp [checkLoop, h, ih]

lemma checkLoop_demote (oracle : Oracle) (l : List String) :
    checkLoop (demoteFailures oracle) l = checkLoop oracle l := by
  induction l with
  | nil => rfl
  | cons p ps ih =>
    cases h : oracle p <;> simp [checkLoop, demoteFailures, h, ih]

/-- **C6.**  The permission check denies a missing, non-string, or
longer-than-253-character domain with no query issued to the capability
system; for a well-formed domain the broad all-sites pattern is queried
first and a grant on it short-circuits the whole check to `true`; the result
is `true` exactly when some queried pattern is granted; and demoting any
throwing query to a plain non-match changes nothing — a failure on one
pattern leaves the remaining patterns checked and no error escapes. -/
theorem c6_permission_check (oracle : Oracle) :
    hasHostAccessLog oracle .undef = (false, []) ∧
    (∀ n : Int, hasHostAccessLog oracle (.num n) = (false, [])) ∧
    (∀ s : String, 253 < s.length → hasHostAccessLog oracle (.str s) = (false, [])) ∧
    (∀ d : String, d ≠ "" → d.length ≤ 253 →
      (hasHostAccessLog oracle (.str d)).2.head? = some "*://*/*" ∧
      (oracle "*://*/*" = .granted →
        hasHostAccessLog oracle (.str d) = (true, ["*://*/*"])) ∧
      ((hasHostAccessLog oracle (.str d)).1 =
        (hostChecks d).any (fun p => oracle p == .granted))) ∧
    (∀ v : JVal, hasHostAccessLog (demoteFailures oracle) v = hasHostAccessLog oracle v) := by
  have hvalid : ∀ d : String, d ≠ "" → d.length ≤ 253 →
      hasHostAccessLog oracle (.str d) = checkLoop oracle (hostChecks d) := by
    intro d h1 h2
    have : ¬(d = "" ∨ 253 < d.length) := by
      rintro (h | h)
      · exact h1 h
      · omega
    simp [hasHostAccessLog, this]
  refine ⟨rfl, fun n => rfl, fun s h => ?_, fun d h1 h2 => ?_, fun v => ?_⟩
  · have : (s = "" ∨ 253 < s.length) := Or.inr h
    simp [hasHostAccessLog, this]
  · rw [hvalid d h1 h2]
    refine ⟨checkLoop_head _ _ _, fun hg => checkLoop_granted_head _ _ _ hg, ?_⟩
    exact checkLoop_any _ _
  · cases v with
    | undef => rfl
    | num n => rfl
    | str d =>
      by_cases hd : d = "" ∨ 253 < d.length
      · simp [hasHostAccessLog, hd]
      · simp only [hasHostAccessLog, hd, if_false, reduceIte]
        exact checkLoop_demote _ _

set_option maxRecDepth 4096 in
/-- Witness for C6: a 254-character domain is denied with no query even when
everything is granted; a valid domain under an all-granting oracle
short-circuits on the broad pattern; under an all-throwing oracle the check
returns false after querying all five patterns. -/
theorem c6_witness :
    hasHostAccessLog (fun _ => .granted) (.str ⟨List.replicate 254 'a'⟩) = (false, []) ∧
    hasHostAccessLog (fun _ => .granted) (.str "a.com") = (true, ["*://*/*"]) ∧
    hasHostAccessLog (demoteFailures (fun _ => .failure)) (.str "a.com") =
      hasHostAccessLog (fun _ => .failure) (.str "a.com") := by
  refine ⟨(c6_permission_check (fun _ => .granted)).2.2.1 _ (by decide),
    ((c6_permission_check (fun _ => .granted)).2.2.2.1 "a.com" (by decide) (by decide)).2.1 rfl,
    (c6_permission_check (fun _ => .failure)).2.2.2.2 (.str "a.com")⟩

/-! ## C3 / C9 helpers: the reconciliation loop -/

/-- The classification `reconcileDomains` applies to one domain: allowed when
the pending grant is live or the oracle grants access. -/
def allowPred (oracle : Oracle) (now : Nat) (pending : List (String × Nat))
    (d : String) : Bool :=
  liveAt pending now d || hasHostAccess oracle d

lemma lookup_delKey (m : List (String × Nat)) (k x : String) :
    (delKey m k).lookup x = if x = k then none else m.lookup x := by
  induction m with
  | nil => simp [delKey]
  | cons a t ih =>
    obtain ⟨a1, a2⟩ := a
    by_cases hak : a1 = k
    · subst hak
      have hd : delKey ((a1, a2) :: t) a1 = delKey t a1 := by simp [delKey]
      rw [hd, ih]
      by_cases hx : x = a1
      · simp [hx]
      · simp [hx, List.lookup, beq_eq_false_iff_ne.mpr hx]
    · have hd : delKey ((a1, a2) :: t) k = (a1, a2) :: delKey t k := by simp [delKey, hak]
      rw [hd]
      by_cases hx : x = a1
      · subst hx
        simp [List.lookup, hak]
      · simp only [List.lookup, beq_eq_false_iff_ne.mpr hx, ih]

lemma liveAt_sweep (p : List (String × Nat)) (now : Nat) (d x : String) :
    liveAt (if sweepCond p now d then delKey p d else p) now x = liveAt p now x := by
  by_cases hsw : sweepCond p now d = true
  · rw [if_pos hsw]
    by_cases hx : x = d
    · subst hx
      have hL : liveAt (delKey p x) now x = false := by
        rw [liveAt, lookup_delKey]
        simp
      rw [sweepCond] at hsw
      cases hl : p.lookup x with
      | none =>
        have hR : liveAt p now x = false := by rw [liveAt, hl]
        rw [hL, hR]
      | some ts =>
        rw [hl] at hsw
        dsimp only at hsw
        rw [Bool.and_eq_true] at hsw
        have h1 : ts ≤ now := by
          have := hsw.2
          rwa [decide_eq_true_eq] at this
        have h2 : decide (now < ts) = false := by
          rw [decide_eq_false_iff_not]
          omega
        have hR : liveAt p now x = false := by
          rw [liveAt, hl]
          dsimp only
          rw [h2, Bool.and_false]
        rw [hL, hR]
    · rw [liveAt, lookup_delKey, if_neg hx, liveAt]
  · rw [if_neg hsw]

lemma reconcileLoop_spec (oracle : Oracle) (now : Nat) :
    ∀ (domains : List String) (p : List (String × Nat)) (ch : Bool),
      (reconcileLoop oracle now domains p ch).allowed =
        domains.filter (allowPred oracle now p) ∧
      (reconcileLoop oracle now domains p ch).denied =
        domains.filter (fun d => !(allowPred oracle now p d)) ∧
      (∀ x, liveAt (reconcileLoop oracle now domains p ch).pending now x =
        liveAt p now x) := by
  intro domains
  induction domains with
  | nil => intro p ch; exact ⟨rfl, rfl, fun x => rfl⟩
  | cons d rest ih =>
    intro p ch
    obtain ⟨ha, hd, hp⟩ := ih (if sweepCond p now d then delKey p d else p)
      (ch || sweepCond p now d)
    have hcong : rest.filter (allowPred oracle now
        (if sweepCond p now d then delKey p d else p)) =
        rest.filter (allowPred oracle now p) := by
      apply List.filter_congr
      intro x _
      rw [allowPred, allowPred, liveAt_sweep]
    have hcongn : rest.filter (fun x => !(allowPred oracle now
        (if sweepCond p now d then delKey p d else p) x)) =
        rest.filter (fun x => !(allowPred oracle now p x)) := by
      apply List.filter_congr
      intro x _
      rw [allowPred, allowPred, liveAt_sweep]
    rcases hal : liveAt p now d || hasHostAccess oracle d with _ | _
    · have hstep : reconcileLoop oracle now (d :: rest) p ch =
          ⟨(reconcileLoop oracle now rest (if sweepCond p now d then delKey p d else p)
              (ch || sweepCond p now d)).allowed,
           d :: (reconcileLoop oracle now rest (if sweepCond p now d then delKey p d else p)
              (ch || sweepCond p now d)).denied,
           (reconcileLoop oracle now rest (if sweepCond p now d then delKey p d else p)
              (ch || sweepCond p now d)).pending,
           (reconcileLoop oracle now rest (if sweepCond p now d then delKey p d else p)
              (ch || sweepCond p now d)).changed⟩ := by
        simp only [reconcileLoop, hal, Bool.false_eq_true, if_false, reduceIte]
      rw [hstep]
      refine ⟨?_, ?_, ?_⟩
      · show (reconcileLoop oracle now rest _ _).allowed = _
        rw [ha, hcong, List.filter_cons_of_neg]
        rw [allowPred, hal]
        simp
      · show d :: (reconcileLoop oracle now rest _ _).denied = _
        rw [hd, hcongn, List.filter_cons_of_pos]
        rw [allowPred, hal]
        simp
      · intro x
        show liveAt (reconcileLoop oracle now rest _ _).pending now x = _
        rw [hp, liveAt_sweep]
    · have hstep : reconcileLoop oracle now (d :: rest) p ch =
          ⟨d :: (reconcileLoop oracle now rest (if sweepCond p now d then delKey p d else p)
              (ch || sweepCond p now d)).allowed,
           (reconcileLoop oracle now rest (if sweepCond p now d then delKey p d else p)
              (ch || sweepCond p now d)).denied,
           (reconcileLoop oracle now rest (if sweepCond p now d then delKey p d else p)
              (ch || sweepCond p now d)).pending,
           (reconcileLoop oracle now rest (if sweepCond p now d then delKey p d else p)
              (ch || sweepCond p now d)).changed⟩ := by
        simp only [reconcileLoop, hal, if_true, reduceIte]
      rw [hstep]
      refine ⟨?_, ?_, ?_⟩
      · show d :: (reconcileLoop oracle now rest _ _).allowed = _
        rw [ha, hcong, List.filter_cons_of_pos]
        rw [allowPred, hal]
      · show (reconcileLoop oracle now rest _ _).denied = _
        rw [hd, hcongn, List.filter_cons_of_neg]
        rw [allowPred, hal]
        simp
      · intro x
        show liveAt (reconcileLoop oracle now rest _ _).pending now x = _
        rw [hp, liveAt_sweep]

lemma mem_dedupAux : ∀ (l seen : List String) (x : String),
    x ∈ dedupAux l seen ↔ (x ∈ l ∧ x ∉ seen) := by
  intro l
  induction l with
  | nil => simp [dedupAux]
  | cons a t ih =>
    intro seen x
    by_cases ha : a ∈ seen
    · rw [dedupAux, if_pos ha, ih]
      simp only [List.mem_cons]
      constructor
      · rintro ⟨hx, hs⟩
        exact ⟨Or.inr hx, hs⟩
      · rintro ⟨rfl | hx, hs⟩
        · exact absurd ha hs
        · exact ⟨hx, hs⟩
    · rw [dedupAux, if_neg ha]
      simp only [List.mem_cons, ih]
      constructor
      · rintro (rfl | ⟨hx, hs⟩)
        · exact ⟨Or.inl rfl, ha⟩
        · exact ⟨Or.inr hx, fun hmem => hs (Or.inr hmem)⟩
      · rintro ⟨hmem, hs⟩
        by_cases hxa : x = a
        · exact Or.inl hxa
        · rcases hmem with rfl | hx
          · exact absurd rfl hxa
          · exact Or.inr ⟨hx, fun h2 => h2.elim hxa hs⟩

lemma nodup_dedupAux : ∀ (l seen : List String), (dedupAux l seen).Nodup := by
  intro l
  induction l with
  | nil => intro seen; exact List.nodup_nil
  | cons a t ih =>
    intro seen
    by_cases ha : a ∈ seen
    · rw [dedupAux, if_pos ha]
      exact ih seen
    · rw [dedupAux, if_neg ha]
      refine List.Nodup.cons ?_ (ih (a :: seen))
      intro hmem
      exact ((mem_dedupAux t (a :: seen) a).mp hmem).2 (List.mem_cons_self a seen)

lemma insertSorted_perm (x : String) (l : List String) :
    (insertSorted x l).Perm (x :: l) := by
  induction l with
  | nil => exact List.Perm.refl _
  | cons y ys ih =>
    rw [insertSorted]
    by_cases h : strLe x y = true
    · rw [if_pos h]
    · rw [if_neg h]
      exact (ih.cons y).trans (List.Perm.swap x y ys)

lemma sortStrings_perm (l : List String) : (sortStrings l).Perm l := by
  induction l with
  | nil => exact List.Perm.refl _
  | cons x xs ih =>
    rw [sortStrings]
    exact (insertSorted_perm x (sortStrings xs)).trans (ih.cons x)

lemma strLe_total (a b : String) : strLe a b = true ∨ strLe b a = true := by
  rw [strLe, strLe]
  generalize a.data = u
  generalize b.data = v
  induction u generalizing v with
  | nil => exact Or.inl rfl
  | cons c cs ih =>
    cases v with
    | nil => exact Or.inr rfl
    | cons e es =>
      by_cases h1 : c.toNat < e.toNat
      · left; simp [lexLe, h1]
      · by_cases h2 : e.toNat < c.toNat
        · right; simp [lexLe, h2, h1]
        · rcases ih es with h | h
          · left; simp [lexLe, h1, h2, h]
          · right
            have h1' : ¬e.toNat < c.toNat := h2
            have h2' : ¬c.toNat < e.toNat := h1
            simp [lexLe, h1', h2', h]

lemma lexLe_trans_aux : ∀ (u v w : List Char), lexLe u v = true → lexLe v w = true →
    lexLe u w = true := by
  intro u
  induction u with
  | nil => intro v w _ _; rfl
  | cons x xs ih =>
    intro v w hab hbc
    cases v with
    | nil => exact absurd hab (by simp [lexLe])
    | cons y ys =>
      cases w with
      | nil => exact absurd hbc (by simp [lexLe])
      | cons z zs =>
        rw [lexLe] at hab hbc ⊢
        split_ifs at hab hbc ⊢ with h1 h2 h3 h4 h5 h6 h7 h8 h9 h10 h11 h12
        all_goals first
          | rfl
          | (exact ih _ _ hab hbc)
          | (exact (Bool.false_ne_true hab).elim)
          | (exact (Bool.false_ne_true hbc).elim)
          | (exfalso; omega)

lemma strLe_trans (a b c : String) (hab : strLe a b = true) (hbc : strLe b c = true) :
    strLe a c = true :=
  lexLe_trans_aux a.data b.data c.data hab hbc

lemma pairwise_insertSorted (x : String) (l : List String)
    (h : l.Pairwise (fun a b => strLe a b = true)) :
    (insertSorted x l).Pairwise (fun a b => strLe a b = true) := by
  induction l with
  | nil => simp [insertSorted]
  | cons y ys ih =>
    rw [insertSorted]
    rcases List.pairwise_cons.mp h with ⟨hy, hys⟩
    by_cases hxy : strLe x y = true
    · rw [if_pos hxy]
      refine List.pairwise_cons.mpr ⟨?_, h⟩
      intro z hz
      rcases List.mem_cons.mp hz with rfl | hz
      · exact hxy
      · exact strLe_trans x y z hxy (hy z hz)
    · rw [if_neg hxy]
      refine List.pairwise_cons.mpr ⟨?_, ih hys⟩
      intro z hz
      have hz2 := (insertSorted_perm x ys).mem_iff.mp hz
      rcases List.mem_cons.mp hz2 with rfl | hz2
      · rcases strLe_total z y with h2 | h2
        · exact absurd h2 hxy
        · exact h2
      · exact hy z hz2

lemma pairwise_sortStrings (l : List String) :
    (sortStrings l).Pairwise (fun a b => strLe a b = true) := by
  induction l with
  | nil => simp [sortStrings]
  | cons x xs ih => exact pairwise_insertSorted x _ ih

lemma mem_dedupSort (l : List String) (x : String) :
    x ∈ dedupSort l ↔ x ∈ l := by
  rw [dedupSort, (sortStrings_perm _).mem_iff, dedupFirst, mem_dedupAux]
  simp

lemma nodup_dedupSort (l : List String) : (dedupSort l).Nodup :=
  (sortStrings_perm _).nodup_iff.mpr (nodup_dedupAux l [])

lemma reconcileDomains_eq (oracle : Oracle) (now : Nat) (st : FGState) :
    reconcileDomains oracle now st =
      ((reconcileLoop oracle now st.blockedDomains st.pendingGrants false).allowed,
       { blockedDomains :=
           if (reconcileLoop oracle now st.blockedDomains st.pendingGrants false).denied.length ≠ 0
           then dedupSort (reconcileLoop oracle now st.blockedDomains st.pendingGrants false).allowed
           else st.blockedDomains
       , pausedUntilTs := st.pausedUntilTs
       , pausedDomains := st.pausedDomains
       , pendingGrants :=
           if (reconcileLoop oracle now st.blockedDomains st.pendingGrants false).changed
           then (reconcileLoop oracle now st.blockedDomains st.pendingGrants false).pending
           else st.pendingGrants }) := by
  by_cases hc : (reconcileLoop oracle now st.blockedDomains st.pendingGrants false).denied.length ≠ 0
  · simp [reconcileDomains, hc]
  · simp [reconcileDomains, hc]

lemma syncPass_fst (st : FGState) (oracle : Oracle) (now : Nat) :
    (syncPass st oracle now).1 = compileRules
      (if st.pausedUntilTs ≠ 0 ∧ now < st.pausedUntilTs then []
       else (reconcileDomains oracle now st).1.filter
         (fun d => !(liveAt st.pausedDomains now d))) := rfl

lemma syncPass_snd (st : FGState) (oracle : Oracle) (now : Nat) :
    (syncPass st oracle now).2 = (reconcileDomains oracle now st).2 := rfl

/-- **C3.**  `reconcileDomains` returns exactly the declared domains with a
live pending grant or a positive oracle answer, in declaration order; and
whenever at least one declared domain is denied, the persisted
`blockedDomains` value is rewritten to the deduplicated, sorted list of the
allowed domains — in particular every denied domain is permanently dropped
from the persisted blocklist, not merely omitted from the returned value. -/
theorem c3_reconcile_rewrite (oracle : Oracle) (now : Nat) (st : FGState) :
    (reconcileDomains oracle now st).1 =
      st.blockedDomains.filter (allowPred oracle now st.pendingGrants) ∧
    ((∃ d ∈ st.blockedDomains, allowPred oracle now st.pendingGrants d = false) →
      (reconcileDomains oracle now st).2.blockedDomains =
        dedupSort (reconcileDomains oracle now st).1 ∧
      (reconcileDomains oracle now st).2.blockedDomains.Nodup ∧
      (reconcileDomains oracle now st).2.blockedDomains.Pairwise
        (fun a b => strLe a b = true) ∧
      (∀ x, x ∈ (reconcileDomains oracle now st).2.blockedDomains ↔
        x ∈ (reconcileDomains oracle now st).1) ∧
      (∀ d ∈ st.blockedDomains, allowPred oracle now st.pendingGrants d = false →
        d ∉ (reconcileDomains oracle now st).2.blockedDomains)) := by
  obtain ⟨ha, hd, hp⟩ := reconcileLoop_spec oracle now st.blockedDomains st.pendingGrants false
  rw [reconcileDomains_eq]
  dsimp only
  refine ⟨ha, fun hden => ?_⟩
  have hcond : (reconcileLoop oracle now st.blockedDomains st.pendingGrants false).denied.length ≠ 0 := by
    obtain ⟨d0, hd0, hpd0⟩ := hden
    have hmem : d0 ∈ (reconcileLoop oracle now st.blockedDomains st.pendingGrants false).denied := by
      rw [hd]
      exact List.mem_filter.mpr ⟨hd0, by simp [hpd0]⟩
    intro hlen
    rw [List.length_eq_zero] at hlen
    rw [hlen] at hmem
    exact List.not_mem_nil d0 hmem
  rw [if_pos hcond]
  refine ⟨rfl, nodup_dedupSort _, pairwise_sortStrings _, fun x => mem_dedupSort _ x, ?_⟩
  intro d hdm hdp hmem
  rw [mem_dedupSort, ha] at hmem
  have := (List.mem_filter.mp hmem).2
  rw [hdp] at this
  exact Bool.false_ne_true this

/-- Witness for C3: with grants for `a.com`/`b.com` only, the declared list
`["b.com", "a.com", "x.com", "a.com"]` reconciles to the allowed occurrences
in order, and the persisted blocklist is rewritten to the deduplicated,
sorted allowed set with the revoked `x.com` gone. -/
theorem c3_witness :
    (reconcileDomains grantAB 0 ⟨["b.com", "a.com", "x.com", "a.com"], 0, [], []⟩).1 =
      ["b.com", "a.com", "a.com"] ∧
    (reconcileDomains grantAB 0 ⟨["b.com", "a.com", "x.com", "a.com"], 0, [], []⟩).2.blockedDomains =
      dedupSort ["b.com", "a.com", "a.com"] ∧
    "x.com" ∉ (reconcileDomains grantAB 0 ⟨["b.com", "a.com", "x.com", "a.com"], 0, [], []⟩).2.blockedDomains := by
  have h := c3_reconcile_rewrite grantAB 0 ⟨["b.com", "a.com", "x.com", "a.com"], 0, [], []⟩
  have hex : ∃ d ∈ (FGState.mk ["b.com", "a.com", "x.com", "a.com"] 0 [] []).blockedDomains,
      allowPred grantAB 0 (FGState.mk ["b.com", "a.com", "x.com", "a.com"] 0 [] []).pendingGrants d = false :=
    ⟨"x.com", by decide, by decide⟩
  obtain ⟨h1, h2⟩ := h
  obtain ⟨hb, _, _, _, hnot⟩ := h2 hex
  refine ⟨by rw [h1]; decide, ?_, hnot "x.com" (by decide) (by decide)⟩
  rw [hb, h1]
  decide

/-! ## C9: idempotence of the pass -/

lemma syncPass_pausedUntilTs (st : FGState) (oracle : Oracle) (now : Nat) :
    (syncPass st oracle now).2.pausedUntilTs = st.pausedUntilTs := by
  rw [syncPass_snd, reconcileDomains_eq]

lemma syncPass_pausedDomains (st : FGState) (oracle : Oracle) (now : Nat) :
    (syncPass st oracle now).2.pausedDomains = st.pausedDomains := by
  rw [syncPass_snd, reconcileDomains_eq]

lemma syncPass_pending_live (st : FGState) (oracle : Oracle) (now : Nat) :
    ∀ x, liveAt (syncPass st oracle now).2.pendingGrants now x =
      liveAt st.pendingGrants now x := by
  intro x
  rw [syncPass_snd, reconcileDomains_eq]
  dsimp only
  by_cases hc : (reconcileLoop oracle now st.blockedDomains st.pendingGrants false).changed = true
  · rw [if_pos hc]
    exact (reconcileLoop_spec oracle now st.blockedDomains st.pendingGrants false).2.2 x
  · rw [if_neg hc]

lemma syncPass_blocked (st : FGState) (oracle : Oracle) (now : Nat) :
    (syncPass st oracle now).2.blockedDomains =
      if (reconcileLoop oracle now st.blockedDomains st.pendingGrants false).denied.length ≠ 0
      then dedupSort (reconcileLoop oracle now st.blockedDomains st.pendingGrants false).allowed
      else st.blockedDomains := by
  rw [syncPass_snd, reconcileDomains_eq]

lemma syncPass_rules_congr (st stB : FGState) (oracle : Oracle) (now : Nat)
    (hb : stB.blockedDomains = st.blockedDomains)
    (hu : stB.pausedUntilTs = st.pausedUntilTs)
    (hpd : stB.pausedDomains = st.pausedDomains)
    (hp : ∀ x, liveAt stB.pendingGrants now x = liveAt st.pendingGrants now x) :
    (syncPass stB oracle now).1 = (syncPass st oracle now).1 := by
  have e1 : (reconcileDomains oracle now stB).1 = (reconcileDomains oracle now st).1 := by
    rw [reconcileDomains_eq, reconcileDomains_eq]
    dsimp only
    rw [(reconcileLoop_spec oracle now stB.blockedDomains stB.pendingGrants false).1,
        (reconcileLoop_spec oracle now st.blockedDomains st.pendingGrants false).1, hb]
    apply List.filter_congr
    intro x _
    rw [allowPred, allowPred, hp]
  rw [syncPass_fst, syncPass_fst, e1, hu, hpd]

lemma syncPass_out_pred (st : FGState) (oracle : Oracle) (now : Nat) :
    ∀ d ∈ (syncPass st oracle now).2.blockedDomains,
      allowPred oracle now (syncPass st oracle now).2.pendingGrants d = true := by
  intro d hmem
  have hl := syncPass_pending_live st oracle now d
  rw [allowPred, hl, ← allowPred]
  rw [syncPass_blocked] at hmem
  by_cases hc : (reconcileLoop oracle now st.blockedDomains st.pendingGrants false).denied.length ≠ 0
  · rw [if_pos hc, mem_dedupSort,
      (reconcileLoop_spec oracle now st.blockedDomains st.pendingGrants false).1] at hmem
    exact (List.mem_filter.mp hmem).2
  · rw [if_neg hc] at hmem
    push_neg at hc
    rw [List.length_eq_zero,
      (reconcileLoop_spec oracle now st.blockedDomains st.pendingGrants false).2.1] at hc
    have h2 := List.filter_eq_nil_iff.mp hc d hmem
    simp only [Bool.not_eq_eq_eq_not, Bool.not_true, Bool.not_eq_true] at h2
    simpa using h2

lemma syncPass_stable (st : FGState) (oracle : Oracle) (now : Nat)
    (h : ∀ d ∈ st.blockedDomains, allowPred oracle now st.pendingGrants d = true) :
    (syncPass (syncPass st oracle now).2 oracle now).1 = (syncPass st oracle now).1 := by
  have hden : (reconcileLoop oracle now st.blockedDomains st.pendingGrants false).denied = [] := by
    rw [(reconcileLoop_spec oracle now st.blockedDomains st.pendingGrants false).2.1,
      List.filter_eq_nil_iff]
    intro d hd
    simp [h d hd]
  have hb : (syncPass st oracle now).2.blockedDomains = st.blockedDomains := by
    rw [syncPass_blocked, hden]
    simp
  exact syncPass_rules_congr st (syncPass st oracle now).2 oracle now hb
    (syncPass_pausedUntilTs st oracle now) (syncPass_pausedDomains st oracle now)
    (syncPass_pending_live st oracle now)

/-- **C9 (amended).**  With the oracle, the clock and all externally stored
state unchanged, running two consecutive `syncRules` passes produces the
identical compiled rule set provided the first pass denied no declared
domain; in general the first pass may deny a domain and rewrite the
blocklist to deduplicated sorted form — changing the order and identifier
assignment of the surviving rules — but from the second pass on, consecutive
passes always produce identical rule sets.  (The original unconditional
claim fails: see `c9_counterexample`.) -/
theorem c9_idempotence_amended (st : FGState) (oracle : Oracle) (now : Nat) :
    ((reconcileLoop oracle now st.blockedDomains st.pendingGrants false).denied = [] →
      (syncPass (syncPass st oracle now).2 oracle now).1 = (syncPass st oracle now).1) ∧
    (syncPass (syncPass (syncPass st oracle now).2 oracle now).2 oracle now).1 =
      (syncPass (syncPass st oracle now).2 oracle now).1 := by
  constructor
  · intro hden
    apply syncPass_stable
    intro d hd
    have h2 : d ∉ (reconcileLoop oracle now st.blockedDomains st.pendingGrants false).denied := by
      rw [hden]
      exact List.not_mem_nil d
    rw [(reconcileLoop_spec oracle now st.blockedDomains st.pendingGrants false).2.1] at h2
    by_cases hp : allowPred oracle now st.pendingGrants d = true
    · exact hp
    · exfalso
      exact h2 (List.mem_filter.mpr ⟨hd, by simp [Bool.not_eq_true] at hp; simp [hp]⟩)
  · exact syncPass_stable (syncPass st oracle now).2 oracle now
      (syncPass_out_pred st oracle now)

/-- Counterexample for C9 as stated: with grants for `a.com` and `b.com`
only and declared list `["b.com", "a.com", "x.com"]`, the first pass denies
`x.com` and rewrites the blocklist to `["a.com", "b.com"]`; the immediately
following pass — same oracle, same clock, no external store change —
compiles a different rule list (the same two domains but with swapped
identifier assignment). -/
theorem c9_counterexample :
    (syncPass (syncPass ⟨["b.com", "a.com", "x.com"], 0, [], []⟩ grantAB 0).2 grantAB 0).1 ≠
      (syncPass ⟨["b.com", "a.com", "x.com"], 0, [], []⟩ grantAB 0).1 := by
  decide

/-- Witness for C9: when the first pass denies nothing, the second pass
compiles the identical rule list, and the second and third passes agree. -/
theorem c9_witness :
    (syncPass (syncPass ⟨["a.com", "b.com"], 0, [], []⟩ grantAB 0).2 grantAB 0).1 =
      (syncPass ⟨["a.com", "b.com"], 0, [], []⟩ grantAB 0).1 ∧
    (syncPass (syncPass (syncPass ⟨["b.com", "a.com", "x.com"], 0, [], []⟩ grantAB 0).2 grantAB 0).2 grantAB 0).1 =
      (syncPass (syncPass ⟨["b.com", "a.com", "x.com"], 0, [], []⟩ grantAB 0).2 grantAB 0).1 :=
  ⟨(c9_idempotence_amended ⟨["a.com", "b.com"], 0, [], []⟩ grantAB 0).1 (by decide),
   (c9_idempotence_amended ⟨["b.com", "a.com", "x.com"], 0, [], []⟩ grantAB 0).2⟩

/-! ## C7: startup re-arming of pause timers -/

lemma string_append_left_inj (p d e : String) (h : p ++ d = p ++ e) : d = e := by
  obtain ⟨dl⟩ := d
  obtain ⟨el⟩ := e
  obtain ⟨pl⟩ := p
  have h2 : pl ++ dl = pl ++ el := congrArg String.data h
  have h3 := List.append_cancel_left h2
  rw [h3]

lemma resumeName_ne_resumeAll (d : String) : ("fg:resume:" ++ d) ≠ "fg:resumeAll" := by
  intro h
  have h2 : ('f' :: 'g' :: ':' :: 'r' :: 'e' :: 's' :: 'u' :: 'm' :: 'e' :: ':' :: d.data) =
      ['f', 'g', ':', 'r', 'e', 's', 'u', 'm', 'e', 'A', 'l', 'l'] := congrArg String.data h
  simp at h2

/-- **C7.**  On startup the scheduler re-arms, under its deterministic name
and exact persisted expiry, a wake timer for the global pause when it is
still in the future and one for every future `pausedDomains` entry; an
already-expired pause gets no timer; and a reconciliation pass then runs on
the same state. -/
theorem c7_startup_rearm (oracle : Oracle) (now : Nat) (st : FGState) :
    (now < st.pausedUntilTs →
      ("fg:resumeAll", st.pausedUntilTs) ∈ (onStartup oracle now st).alarms) ∧
    (st.pausedUntilTs ≤ now →
      ∀ ts, ("fg:resumeAll", ts) ∉ (onStartup oracle now st).alarms) ∧
    (∀ d ts, (d, ts) ∈ st.pausedDomains → now < ts →
      ("fg:resume:" ++ d, ts) ∈ (onStartup oracle now st).alarms) ∧
    (∀ d ts, (d, ts) ∈ st.pausedDomains → ts ≤ now →
      ("fg:resume:" ++ d, ts) ∉ (onStartup oracle now st).alarms) ∧
    (onStartup oracle now st).rules = (syncPass st oracle now).1 ∧
    (onStartup oracle now st).state = (syncPass st oracle now).2 := by
  have halarm : (onStartup oracle now st).alarms = startupAlarms st now := rfl
  refine ⟨?_, ?_, ?_, ?_, rfl, rfl⟩
  · intro hfut
    rw [halarm, startupAlarms]
    apply List.mem_append_left
    rw [if_pos ⟨by omega, hfut⟩]
    exact List.mem_singleton_self _
  · intro hle ts hmem
    rw [halarm, startupAlarms] at hmem
    have hcond : ¬(st.pausedUntilTs ≠ 0 ∧ now < st.pausedUntilTs) := by
      rintro ⟨h1, h2⟩
      omega
    rcases List.mem_append.mp hmem with h | h
    · rw [if_neg hcond] at h
      exact List.not_mem_nil _ h
    · obtain ⟨e, _, hsome⟩ := List.mem_filterMap.mp h
      by_cases hc : e.2 ≠ 0 ∧ now < e.2
      · rw [if_pos hc] at hsome
        have hfst := congrArg Prod.fst (Option.some.inj hsome)
        exact resumeName_ne_resumeAll e.1 hfst
      · rw [if_neg hc] at hsome
        exact Option.noConfusion hsome
  · intro d ts hmem hfut
    rw [halarm, startupAlarms]
    apply List.mem_append_right
    refine List.mem_filterMap.mpr ⟨(d, ts), hmem, ?_⟩
    rw [if_pos ⟨by omega, hfut⟩]
  · intro d ts hmem hle hmem2
    rw [halarm, startupAlarms] at hmem2
    rcases List.mem_append.mp hmem2 with h | h
    · by_cases hc : st.pausedUntilTs ≠ 0 ∧ now < st.pausedUntilTs
      · rw [if_pos hc] at h
        have := congrArg Prod.fst (List.mem_singleton.mp h)
        exact resumeName_ne_resumeAll d this
      · rw [if_neg hc] at h
        exact List.not_mem_nil _ h
    · obtain ⟨e, hemem, hsome⟩ := List.mem_filterMap.mp h
      by_cases hc : e.2 ≠ 0 ∧ now < e.2
      · rw [if_pos hc] at hsome
        have hpair := Option.some.inj hsome
        have hsnd := congrArg Prod.snd hpair
        dsimp only at hsnd
        rw [hsnd] at hc
        omega
      · rw [if_neg hc] at hsome
        exact Option.noConfusion hsome

/-- Witness for C7: a persisted state with one future and one expired domain
pause re-arms exactly the future one at its stored expiry, plus the future
global pause, and the pass then runs. -/
theorem c7_witness :
    ("fg:resumeAll", 900) ∈
      (onStartup grantAB 100 ⟨[], 900, [("d.example", 300100), ("old.example", 40)], []⟩).alarms ∧
    ("fg:resume:" ++ "d.example", 300100) ∈
      (onStartup grantAB 100 ⟨[], 900, [("d.example", 300100), ("old.example", 40)], []⟩).alarms ∧
    ("fg:resume:" ++ "old.example", 40) ∉
      (onStartup grantAB 100 ⟨[], 900, [("d.example", 300100), ("old.example", 40)], []⟩).alarms := by
  have h := c7_startup_rearm grantAB 100 ⟨[], 900, [("d.example", 300100), ("old.example", 40)], []⟩
  exact ⟨h.1 (by decide), h.2.2.1 "d.example" 300100 (by decide) (by decide),
    h.2.2.2.1 "old.example" 40 (by decide) (by decide)⟩

/-! ## C8: the command router -/

/-- The router's minutes validation `typeof minutes === "number" && minutes > 0`. -/
def validMinutes : JVal → Bool
  | .num n => decide (0 < n)
  | _ => false

/-- **C8 (amended).**  Every command yields an `{ok: true}` or
`{ok: false, error}` shaped result; an unrecognized command yields
`{ok:false, error:"Unknown command"}` and mutates nothing; a missing/falsy
domain or a non-numeric or non-positive minutes value yields `{ok:false}`
with a descriptive error and mutates nothing.  A *truthy non-string* domain,
however, passes the router's truthiness check: `pauseDomain` and
`resumeDomain` then answer `{ok:true}` while the underlying operation
silently no-ops, mutating nothing.  (The original claim said every
non-string domain yields `{ok:false}`: see `c8_counterexample`.) -/
theorem c8_command_router_amended (oracle : Oracle) (now : Nat) (msg : Msg) (w : World) :
    ((handleMessage oracle now msg w).1 = .ok ∨
      ∃ e, (handleMessage oracle now msg w).1 = .err e) ∧
    (msg.cmd ∉ ([JVal.str "syncRules", JVal.str "pauseForMinutes", JVal.str "resumeNow",
        JVal.str "pauseDomain", JVal.str "resumeDomain", JVal.str "markPending",
        JVal.str "markGranted"] : List JVal) →
      handleMessage oracle now msg w = (.err "Unknown command", w)) ∧
    (msg.cmd = JVal.str "pauseForMinutes" → validMinutes msg.minutes = false →
      handleMessage oracle now msg w = (.err "Invalid minutes", w)) ∧
    (msg.cmd = JVal.str "pauseDomain" →
      (msg.domain.truthy && validMinutes msg.minutes) = false →
      handleMessage oracle now msg w = (.err "Invalid domain or minutes", w)) ∧
    (msg.cmd = JVal.str "resumeDomain" → msg.domain.truthy = false →
      handleMessage oracle now msg w = (.err "Invalid domain", w)) ∧
    (msg.cmd = JVal.str "markPending" → msg.domain.truthy = false →
      handleMessage oracle now msg w = (.err "Invalid domain", w)) ∧
    (msg.cmd = JVal.str "markGranted" → msg.domain.truthy = false →
      handleMessage oracle now msg w = (.err "Invalid domain", w)) ∧
    (∀ k : Int, msg.cmd = JVal.str "pauseDomain" → msg.domain = JVal.num k → k ≠ 0 →
      validMinutes msg.minutes = true → handleMessage oracle now msg w = (.ok, w)) ∧
    (∀ k : Int, msg.cmd = JVal.str "resumeDomain" → msg.domain = JVal.num k → k ≠ 0 →
      handleMessage oracle now msg w = (.ok, w)) := by
  refine ⟨?_, ?_, ?_, ?_, ?_, ?_, ?_, ?_, ?_⟩
  · cases h : (handleMessage oracle now msg w).1 with
    | ok => exact Or.inl rfl
    | err e => exact Or.inr ⟨e, rfl⟩
  · intro hnot
    simp only [List.mem_cons, List.not_mem_nil, or_false, not_or] at hnot
    obtain ⟨h1, h2, h3, h4, h5, h6, h7⟩ := hnot
    simp [handleMessage, h1, h2, h3, h4, h5, h6, h7]
  · intro hcmd hmin
    cases hm : msg.minutes with
    | num n =>
      have hn : ¬(0 < n) := by
        rw [hm] at hmin
        simpa [validMinutes] using hmin
      simp [handleMessage, hcmd, hm, hn]
    | undef => simp [handleMessage, hcmd, hm]
    | str t => simp [handleMessage, hcmd, hm]
  · intro hcmd hb
    cases hm : msg.minutes with
    | num n =>
      rw [hm] at hb
      have hb2 : (msg.domain.truthy && decide (0 < n)) = false := by
        simpa [validMinutes] using hb
      simp [handleMessage, hcmd, hm, hb2]
    | undef => simp [handleMessage, hcmd, hm]
    | str t => simp [handleMessage, hcmd, hm]
  · intro hcmd hd
    simp [handleMessage, hcmd, hd]
  · intro hcmd hd
    simp [handleMessage, hcmd, hd]
  · intro hcmd hd
    simp [handleMessage, hcmd, hd]
  · intro k hcmd hdom hk hmin
    have hn : ∃ n : Int, msg.minutes = JVal.num n ∧ 0 < n := by
      cases hm : msg.minutes with
      | num n =>
        rw [hm] at hmin
        exact ⟨n, rfl, by simpa [validMinutes] using hmin⟩
      | undef => rw [hm] at hmin; simp [validMinutes] at hmin
      | str t => rw [hm] at hmin; simp [validMinutes] at hmin
    obtain ⟨n, hm, hpos⟩ := hn
    simp [handleMessage, hcmd, hm, hdom, JVal.truthy, hk, hpos, pauseDomainForMinutes]
  · intro k hcmd hdom hk
    simp [handleMessage, hcmd, hdom, JVal.truthy, hk, resumeDomainNow]

/-- Counterexample for C8 as stated: the command
`{cmd:"pauseDomain", domain: 5, minutes: 5}` has a non-string (numeric)
domain, yet the router answers `{ok:true}` (the inner operation silently
no-ops), not the `{ok:false}` the claim requires for an invalid domain. -/
theorem c8_counterexample :
    handleMessage grantAB 0 ⟨.str "pauseDomain", .num 5, .num 5⟩ ⟨⟨[], 0, [], []⟩, [], []⟩ =
      (.ok, ⟨⟨[], 0, [], []⟩, [], []⟩) := by
  decide

/-- Witness for C8: an unknown command and a falsy-domain command each
produce the stated error with the world unchanged, and a numeric-domain
`resumeDomain` answers ok with the world unchanged. -/
theorem c8_witness :
    handleMessage grantAB 0 ⟨.str "bogus", .undef, .undef⟩ ⟨⟨[], 0, [], []⟩, [], []⟩ =
      (.err "Unknown command", ⟨⟨[], 0, [], []⟩, [], []⟩) ∧
    handleMessage grantAB 0 ⟨.str "pauseDomain", .str "", .num 5⟩ ⟨⟨[], 0, [], []⟩, [], []⟩ =
      (.err "Invalid domain or minutes", ⟨⟨[], 0, [], []⟩, [], []⟩) ∧
    handleMessage grantAB 0 ⟨.str "resumeDomain", .num 7, .undef⟩ ⟨⟨[], 0, [], []⟩, [], []⟩ =
      (.ok, ⟨⟨[], 0, [], []⟩, [], []⟩) := by
  have h := c8_command_router_amended grantAB 0 ⟨.str "resumeDomain", .num 7, .undef⟩
    ⟨⟨[], 0, [], []⟩, [], []⟩
  refine ⟨?_, ?_, h.2.2.2.2.2.2.2.2 7 rfl rfl (by decide)⟩
  · exact (c8_command_router_amended grantAB 0 ⟨.str "bogus", .undef, .undef⟩
      ⟨⟨[], 0, [], []⟩, [], []⟩).2.1 (by decide)
  · exact (c8_command_router_amended grantAB 0 ⟨.str "pauseDomain", .str "", .num 5⟩
      ⟨⟨[], 0, [], []⟩, [], []⟩).2.2.2.1 rfl (by decide)

/-! ## C10: encode/decode round trip -/

/-- The token list `decodeURIComponent`'s first phase recovers from the
escape of one character. -/
def encTok (c : Char) : List Tok :=
  if isUnreservedChar c then [.ch c] else (utf8Bytes c.toNat).map .byte

lemma hexVal_hexDigitChar : ∀ b < 16, hexVal (hexDigitChar b) = b := by decide

lemma char_toNat_lt (c : Char) : c.toNat < 1114112 := by
  have h := c.valid
  simp only [UInt32.isValidChar, Nat.isValidChar] at h
  show c.val.toNat < 1114112
  rcases h with h | ⟨h1, h2⟩ <;> omega

lemma utf8Bytes_lt (n : Nat) (h : n < 1114112) : ∀ b ∈ utf8Bytes n, b < 256 := by
  intro b hb
  rw [utf8Bytes] at hb
  split_ifs at hb with h1 h2 h3
  · simp only [List.mem_singleton] at hb
    omega
  · simp only [List.mem_cons, List.mem_singleton, List.not_mem_nil, or_false] at hb
    rcases hb with rfl | rfl <;> omega
  · simp only [List.mem_cons, List.mem_singleton, List.not_mem_nil, or_false] at hb
    rcases hb with rfl | rfl | rfl <;> omega
  · simp only [List.mem_cons, List.mem_singleton, List.not_mem_nil, or_false] at hb
    rcases hb with rfl | rfl | rfl | rfl <;> omega

lemma percentToks_escape (h l : Char) (rest : List Char) :
    percentToks ('%' :: h :: l :: rest) =
      .byte (16 * hexVal h + hexVal l) :: percentToks rest := rfl

lemma percentToks_byte (b : Nat) (rest : List Char) (hb : b < 256) :
    percentToks (percentEncodeByte b ++ rest) = .byte b :: percentToks rest := by
  show percentToks ('%' :: hexDigitChar (b / 16) :: hexDigitChar (b % 16) :: rest) = _
  rw [percentToks_escape, hexVal_hexDigitChar (b / 16) (by omega),
    hexVal_hexDigitChar (b % 16) (by omega)]
  have hv : 16 * (b / 16) + b % 16 = b := by omega
  rw [hv]

lemma percentToks_bytes (bs : List Nat) (rest : List Char) (h : ∀ b ∈ bs, b < 256) :
    percentToks ((bs.map percentEncodeByte).flatten ++ rest) =
      bs.map Tok.byte ++ percentToks rest := by
  induction bs with
  | nil => simp
  | cons b t ih =>
    rw [List.map_cons, List.flatten_cons, List.append_assoc,
      percentToks_byte b _ (h b (List.mem_cons_self b t)), List.map_cons, List.cons_append,
      ih (fun x hx => h x (List.mem_cons_of_mem b hx))]

lemma unreserved_ne_percent (c : Char) (h : isUnreservedChar c = true) : c ≠ '%' := by
  intro hc
  subst hc
  exact absurd h (by decide)

lemma unreserved_ne_amp (c : Char) (h : isUnreservedChar c = true) : c ≠ '&' := by
  intro hc
  subst hc
  exact absurd h (by decide)

lemma percentToks_ch (c : Char) (rest : List Char) (h : c ≠ '%') :
    percentToks (c :: rest) = .ch c :: percentToks rest := by
  rcases rest with _ | ⟨x, _ | ⟨y, t⟩⟩
  · simp [percentToks, h]
  · simp [percentToks, h]
  · simp [percentToks, h]

lemma percentToks_encodeChar (c : Char) (rest : List Char) :
    percentToks (encodeChar c ++ rest) = encTok c ++ percentToks rest := by
  rw [encodeChar, encTok]
  by_cases h : isUnreservedChar c = true
  · rw [if_pos h, if_pos h]
    simp only [List.cons_append, List.nil_append]
    exact percentToks_ch c rest (unreserved_ne_percent c h)
  · rw [if_neg h, if_neg h]
    exact percentToks_bytes _ _ (utf8Bytes_lt c.toNat (char_toNat_lt c))

lemma utf8Fold_ch (c : Char) (toks : List Tok) :
    utf8Fold none (.ch c :: toks) = c :: utf8Fold none toks := rfl

lemma utf8Fold_b1 (b0 : Nat) (toks : List Tok) (h : b0 < 128) :
    utf8Fold none (.byte b0 :: toks) = Char.ofNat b0 :: utf8Fold none toks := by
  rw [utf8Fold, if_pos h]

lemma utf8Fold_b2 (b0 : Nat) (toks : List Tok) (h1 : ¬b0 < 128) (h2 : b0 < 224) :
    utf8Fold none (.byte b0 :: toks) = utf8Fold (some (1, b0 - 192)) toks := by
  rw [utf8Fold, if_neg h1, if_pos h2]

lemma utf8Fold_b3 (b0 : Nat) (toks : List Tok) (h1 : ¬b0 < 128) (h2 : ¬b0 < 224)
    (h3 : b0 < 240) :
    utf8Fold none (.byte b0 :: toks) = utf8Fold (some (2, b0 - 224)) toks := by
  rw [utf8Fold, if_neg h1, if_neg h2, if_pos h3]

lemma utf8Fold_b4 (b0 : Nat) (toks : List Tok) (h1 : ¬b0 < 128) (h2 : ¬b0 < 224)
    (h3 : ¬b0 < 240) :
    utf8Fold none (.byte b0 :: toks) = utf8Fold (some (3, b0 - 240)) toks := by
  rw [utf8Fold, if_neg h1, if_neg h2, if_neg h3]

lemma utf8Fold_cont (k acc b : Nat) (toks : List Tok) (h : ¬k = 1) :
    utf8Fold (some (k, acc)) (.byte b :: toks) =
      utf8Fold (some (k - 1, acc * 64 + (b - 128))) toks := by
  rw [utf8Fold, if_neg h]

lemma utf8Fold_lastByte (acc b : Nat) (toks : List Tok) :
    utf8Fold (some (1, acc)) (.byte b :: toks) =
      Char.ofNat (acc * 64 + (b - 128)) :: utf8Fold none toks := by
  rw [utf8Fold, if_pos rfl]

lemma utf8Fold_bytes (c : Char) (toks : List Tok) :
    utf8Fold none ((utf8Bytes c.toNat).map Tok.byte ++ toks) = c :: utf8Fold none toks := by
  have hlt := char_toNat_lt c
  have hofnat := Char.ofNat_toNat c
  by_cases h1 : c.toNat < 128
  · rw [utf8Bytes, if_pos h1]
    simp only [List.map_cons, List.map_nil, List.cons_append, List.nil_append]
    rw [utf8Fold_b1 _ _ h1, hofnat]
  · by_cases h2 : c.toNat < 2048
    · rw [utf8Bytes, if_neg h1, if_pos h2]
      simp only [List.map_cons, List.map_nil, List.cons_append, List.nil_append]
      rw [utf8Fold_b2 _ _ (by omega) (by omega), utf8Fold_lastByte]
      have hval : (192 + c.toNat / 64 - 192) * 64 + (128 + c.toNat % 64 - 128) = c.toNat := by
        omega
      rw [hval, hofnat]
    · by_cases h3 : c.toNat < 65536
      · rw [utf8Bytes, if_neg h1, if_neg h2, if_pos h3]
        simp only [List.map_cons, List.map_nil, List.cons_append, List.nil_append]
        rw [utf8Fold_b3 _ _ (by omega) (by omega) (by omega),
          utf8Fold_cont 2 _ _ _ (by omega), utf8Fold_lastByte]
        have hval : ((224 + c.toNat / 4096 - 224) * 64 + (128 + c.toNat / 64 % 64 - 128)) * 64 +
            (128 + c.toNat % 64 - 128) = c.toNat := by omega
        rw [hval, hofnat]
      · rw [utf8Bytes, if_neg h1, if_neg h2, if_neg h3]
        simp only [List.map_cons, List.map_nil, List.cons_append, List.nil_append]
        rw [utf8Fold_b4 _ _ (by omega) (by omega) (by omega),
          utf8Fold_cont 3 _ _ _ (by omega)]
        rw [utf8Fold_cont 2 _ _ _ (by omega), utf8Fold_lastByte]
        have hval : (((240 + c.toNat / 262144 - 240) * 64 + (128 + c.toNat / 4096 % 64 - 128)) *
            64 + (128 + c.toNat / 64 % 64 - 128)) * 64 + (128 + c.toNat % 64 - 128) = c.toNat := by
          omega
        rw [hval, hofnat]

lemma utf8Fold_encTok (c : Char) (toks : List Tok) :
    utf8Fold none (encTok c ++ toks) = c :: utf8Fold none toks := by
  rw [encTok]
  by_cases h : isUnreservedChar c = true
  · rw [if_pos h]
    simp only [List.cons_append, List.nil_append]
    exact utf8Fold_ch c toks
  · rw [if_neg h]
    exact utf8Fold_bytes c toks

lemma decodePercent_encode (l : List Char) :
    decodePercent ((l.map encodeChar).flatten) = l := by
  induction l with
  | nil => rfl
  | cons c t ih =>
    rw [List.map_cons, List.flatten_cons]
    show utf8Fold none (percentToks (encodeChar c ++ (t.map encodeChar).flatten)) = c :: t
    rw [percentToks_encodeChar, utf8Fold_encTok]
    exact congrArg (List.cons c) ih

lemma encodeChar_ne_nil (c : Char) : encodeChar c ≠ [] := by
  rw [encodeChar]
  by_cases h : isUnreservedChar c = true
  · rw [if_pos h]
    simp
  · rw [if_neg h, utf8Bytes]
    split_ifs <;> simp [percentEncodeByte]

lemma hexDigitChar_ne_amp : ∀ b < 16, hexDigitChar b ≠ '&' := by decide

lemma mem_encodeChar_ne_amp (c x : Char) (hx : x ∈ encodeChar c) : x ≠ '&' := by
  rw [encodeChar] at hx
  by_cases h : isUnreservedChar c = true
  · rw [if_pos h, List.mem_singleton] at hx
    rw [hx]
    exact unreserved_ne_amp c h
  · rw [if_neg h] at hx
    obtain ⟨ys, hys, hxy⟩ := List.mem_flatten.mp hx
    obtain ⟨b, hb, rfl⟩ := List.mem_map.mp hys
    have hb256 : b < 256 := utf8Bytes_lt c.toNat (char_toNat_lt c) b hb
    rw [percentEncodeByte] at hxy
    simp only [List.mem_cons, List.mem_singleton, List.not_mem_nil, or_false] at hxy
    rcases hxy with rfl | rfl | rfl
    · decide
    · exact hexDigitChar_ne_amp (b / 16) (by omega)
    · exact hexDigitChar_ne_amp (b % 16) (by omega)

lemma findDMatch_concrete (enc : List Char) (hne : enc ≠ [])
    (hamp : ∀ x ∈ enc, x ≠ '&') :
    findDMatch ('#' :: 'd' :: '=' :: enc) = some enc := by
  have htake : enc.takeWhile (fun x => x ≠ '&') = enc :=
    List.takeWhile_eq_self_iff.mpr (fun x hx => by simpa using hamp x hx)
  rcases henc : enc with _ | ⟨e, es⟩
  · exact absurd henc hne
  · rw [← henc]
    simp only [findDMatch, htake]
    rw [henc]
    simp [List.isEmpty]

lemma map_toLower_eq_self_mem (l : List Char) (h : l.map Char.toLower = l) :
    ∀ x ∈ l, Char.toLower x = x := by
  induction l with
  | nil => intro x hx; exact absurd hx (List.not_mem_nil x)
  | cons a t ih =>
    intro x hx
    rw [List.map_cons] at h
    have h1 : Char.toLower a = a := (List.cons.injEq _ _ _ _ ▸ h).1
    have h2 : t.map Char.toLower = t := (List.cons.injEq _ _ _ _ ▸ h).2
    rcases List.mem_cons.mp hx with rfl | hx
    · exact h1
    · exact ih h2 x hx

/-- **C10.**  For every non-empty lowercase domain string that does not begin
with `www.`, embedding it in a compiled rule's redirect target as
`/blocked.html#d=` plus its URL-encoding and then extracting the domain on
the blocked page from that hash (regex match, decode, strip leading `www.`,
lowercase) recovers exactly the original domain. -/
theorem c10_round_trip (d : String) (h1 : d ≠ "")
    (h2 : d.data.map Char.toLower = d.data) (h3 : beginsWithWww d = false) :
    getDomainFromHash ("#d=" ++ encodeURIComponent d) = d := by
  have hpoint := map_toLower_eq_self_mem d.data h2
  have hdata : ("#d=" ++ encodeURIComponent d).data =
      '#' :: 'd' :: '=' :: (d.data.map encodeChar).flatten := rfl
  have hdne : d.data ≠ [] := by
    intro hd
    apply h1
    obtain ⟨l⟩ := d
    have hl : l = [] := hd
    rw [hl]
  have hne : (d.data.map encodeChar).flatten ≠ [] := by
    rcases hd : d.data with _ | ⟨c, t⟩
    · exact absurd hd hdne
    · rw [List.map_cons, List.flatten_cons]
      intro hcontra
      exact encodeChar_ne_nil c (List.append_eq_nil.mp hcontra).1
  have hamp : ∀ x ∈ (d.data.map encodeChar).flatten, x ≠ '&' := by
    intro x hx
    obtain ⟨ys, hys, hxy⟩ := List.mem_flatten.mp hx
    obtain ⟨c, _, rfl⟩ := List.mem_map.mp hys
    exact mem_encodeChar_ne_amp c x hxy
  have hfind : findDMatch (("#d=" ++ encodeURIComponent d).data) =
      some ((d.data.map encodeChar).flatten) := by
    rw [hdata]
    exact findDMatch_concrete _ hne hamp
  have hstrip : stripWww d.data = d.data := by
    rcases hdd : d.data with _ | ⟨a, _ | ⟨b, _ | ⟨c, _ | ⟨e, rest⟩⟩⟩⟩
    · rfl
    · rfl
    · rfl
    · rfl
    · rw [stripWww]
      rw [if_neg ?_]
      rintro ⟨ha, hb, hc, he⟩
      have hma : a ∈ d.data := by rw [hdd]; exact List.mem_cons_self _ _
      have hmb : b ∈ d.data := by rw [hdd]; simp
      have hmc : c ∈ d.data := by rw [hdd]; simp
      have ha' : a = 'w' := (hpoint a hma).symm.trans ha
      have hb' : b = 'w' := (hpoint b hmb).symm.trans hb
      have hc' : c = 'w' := (hpoint c hmc).symm.trans hc
      subst ha'
      subst hb'
      subst hc'
      subst he
      have hbw : beginsWithWww d = true := by
        rw [beginsWithWww, hdd]
        rfl
      rw [h3] at hbw
      exact Bool.false_ne_true hbw
  rw [getDomainFromHash, hfind]
  dsimp only
  rw [decodePercent_encode, hstrip, h2]

/-- Witness for C10: a concrete domain with a space and a non-ASCII
character survives the encode-then-decode round trip. -/
theorem c10_witness :
    getDomainFromHash ("#d=" ++ encodeURIComponent "aé b.example") = "aé b.example" :=
  c10_round_trip "aé b.example" (by decide) (by decide) (by decide)

end FocusGate
